import Mathlib

/-!
Verification of the kagaribi build/deploy orchestration core.

This file gives a shallow embedding, in Lean 4, of the parts of the
kagaribi repository that the verified claims are about:

* the package resolver (`scanner.ts`: `resolvePackages`),
* the build planner (`build/planner.ts`: `createBuildPlan`),
* the deploy orchestrator's pure selection and persistence logic
  (`build/deploy.ts`: `adjustResolvedForTarget`, `filterGroupsForDeploy`,
  and the sequential deploy loop of `deployProject`),
* the configuration mutator (`config-updater.ts`: `findPackagesBlock`,
  `detectIndent`, `configToString`, `formatObjectKey`,
  `updateConfigAddPackage`, `updateConfigSetDeployResult`), embedded as
  pure text transformations on the file content, and
* the subprocess wrapper (`build/exec.ts`: `exec`), with the outcome of
  the spawned process abstracted as an explicit input.

JavaScript truthiness of optional strings (`undefined` and `""` are both
falsy) is modelled by `truthy` on `Option String`.  Records
(`Record<string, T>`) are modelled as association lists whose lookup
returns the first binding.  File I/O is abstracted away: each embedded
function takes the file content (or process outcome) as an argument and
returns the transformed content / result.
-/

namespace Kagaribi

/-- JavaScript truthiness of an optional string value: `undefined` and the
empty string are falsy, every other string is truthy. -/
def truthy : Option String → Bool
  | none => false
  | some s => !(s == "")

/-- The five deployment targets of `types.ts` (`DeployTarget`). -/
inductive DeployTarget where
  | node
  | cloudflareWorkers
  | awsLambda
  | googleCloudRun
  | deno
deriving DecidableEq, Repr

/-- The string literal of each `DeployTarget` member in the source. -/
def targetToString : DeployTarget → String
  | .node => "node"
  | .cloudflareWorkers => "cloudflare-workers"
  | .awsLambda => "aws-lambda"
  | .googleCloudRun => "google-cloud-run"
  | .deno => "deno"

/-- `PackageDefinition` of `types.ts`: the static package manifest.  The
optional array fields default to the empty list. -/
structure PackageDefinition where
  name : String
  dependencies : List String := []
  runtime : List DeployTarget := []
  routes : List String := []
deriving DecidableEq, Repr

/-- `PackageDeployConfig` of `types.ts`: all three fields optional. -/
structure PackageDeployConfig where
  target : Option DeployTarget := none
  colocateWith : Option String := none
  url : Option String := none
deriving DecidableEq, Repr

/-- The `'local' | 'remote'` mode of a resolved package. -/
inductive PackageMode where
  | «local»
  | remote
deriving DecidableEq, Repr

/-- `ResolvedPackage` of `types.ts`. -/
structure ResolvedPackage where
  name : String
  path : String
  definition : PackageDefinition
  deploy : PackageDeployConfig
  mode : PackageMode
deriving DecidableEq, Repr

/-- `EnvironmentConfig` of `types.ts`: the per-environment override record.
The optional `packages` record defaults to the empty record. -/
structure EnvironmentConfig where
  packages : List (String × PackageDeployConfig) := []
deriving DecidableEq, Repr

/-- `KagaribiConfig` of `types.ts` (the `db` field plays no role in the
claims under verification and is omitted). -/
structure KagaribiConfig where
  packages : List (String × PackageDeployConfig) := []
  environments : List (String × EnvironmentConfig) := []
deriving DecidableEq, Repr

/-- Lookup in a `Record<string, T>` modelled as an association list:
the first binding for the key, as JavaScript property access reads a
record with unique keys. -/
def lookupRecord {α : Type} (record : List (String × α)) (key : String) : Option α :=
  (record.find? (fun kv => kv.1 == key)).map (fun kv => kv.2)

/-- One scanned package directory: the value type of the map returned by
`scanPackages` (`scanner.ts`), keyed by the manifest's `name`. -/
structure ScannedEntry where
  path : String
  definition : PackageDefinition
deriving DecidableEq, Repr

/-- One field of the object-spread merge `{...base, ...wildcard, ...specific}`:
a later object's present key wins over an earlier one's. -/
def overrideField {α : Type} (base upd : Option α) : Option α :=
  match upd with
  | some v => some v
  | none => base

/-- The deploy-config merge of `resolvePackages` (`scanner.ts`):
`{...baseConfig, ...wildcardOverride, ...specificOverride}`. -/
def mergeDeploy (base wildcard specific : PackageDeployConfig) : PackageDeployConfig :=
  { target := overrideField (overrideField base.target wildcard.target) specific.target
    colocateWith :=
      overrideField (overrideField base.colocateWith wildcard.colocateWith) specific.colocateWith
    url := overrideField (overrideField base.url wildcard.url) specific.url }

/-- The mode derivation of `resolvePackages` (`scanner.ts`):
`deploy.colocateWith ? 'local' : deploy.url ? 'remote' : 'local'`. -/
def deriveMode (deploy : PackageDeployConfig) : PackageMode :=
  if truthy deploy.colocateWith then PackageMode.«local»
  else if truthy deploy.url then PackageMode.remote
  else PackageMode.«local»

/-- `resolvePackages` of `scanner.ts`: merge each scanned package's config
layers and derive its mode.  The scanned map is modelled as the list of its
`(name, entry)` pairs in iteration order; the loop appends one resolved
package per pair. -/
def resolvePackages (scanned : List (String × ScannedEntry)) (config : KagaribiConfig)
    (environment : Option String) : List ResolvedPackage :=
  let envOverrides : Option (List (String × PackageDeployConfig)) :=
    environment.bind (fun env => (lookupRecord config.environments env).map (fun ec => ec.packages))
  scanned.map (fun kv =>
    let name := kv.1
    let baseConfig := (lookupRecord config.packages name).getD {}
    let wildcardOverride := (envOverrides.bind (fun o => lookupRecord o ("*"))).getD {}
    let specificOverride := (envOverrides.bind (fun o => lookupRecord o name)).getD {}
    let deploy := mergeDeploy baseConfig wildcardOverride specificOverride
    { name := name
      path := kv.2.path
      definition := kv.2.definition
      deploy := deploy
      mode := deriveMode deploy })

/-- `BuildGroup` of `build/adapters/types.ts`. -/
structure BuildGroup where
  host : ResolvedPackage
  colocated : List ResolvedPackage
  remotes : List ResolvedPackage
  target : DeployTarget
deriving DecidableEq, Repr

/-- `BuildPlan` of `build/adapters/types.ts`. -/
structure BuildPlan where
  groups : List BuildGroup
  projectRoot : String
  environment : String
  config : KagaribiConfig
deriving DecidableEq, Repr

/-- `isIndependent` of `build/planner.ts`:
`!p.deploy.colocateWith || Boolean(p.deploy.url)`. -/
def isIndependent (p : ResolvedPackage) : Bool :=
  !truthy p.deploy.colocateWith || truthy p.deploy.url

/-- The co-location map of `createBuildPlan` (`build/planner.ts`), read at a
given host name: the loop pushes, in list order, every package with a truthy
`colocateWith` and a falsy `url` onto the list stored under its
`colocateWith` key, so the list for `hostName` is exactly this filter. -/
def colocatedFor (resolved : List ResolvedPackage) (hostName : String) :
    List ResolvedPackage :=
  resolved.filter (fun p =>
    truthy p.deploy.colocateWith && !truthy p.deploy.url &&
      (p.deploy.colocateWith == some hostName))

/-- `createBuildPlan` of `build/planner.ts`. -/
def createBuildPlan (projectRoot : String) (resolved : List ResolvedPackage)
    (environment : String) (config : KagaribiConfig) : BuildPlan :=
  let hosts := resolved.filter isIndependent
  let remotePackages := resolved.filter (fun p => truthy p.deploy.url)
  let groups : List BuildGroup := hosts.map (fun host =>
    let colocated := colocatedFor resolved host.name
    let target : DeployTarget := host.deploy.target.getD DeployTarget.node
    let groupNames : List String := host.name :: colocated.map (fun c => c.name)
    let remotes := remotePackages.filter (fun r => !(groupNames.contains r.name))
    { host := host, colocated := colocated, remotes := remotes, target := target })
  { groups := groups, projectRoot := projectRoot, environment := environment, config := config }

/-! ### Deploy orchestration (`build/deploy.ts`) -/

/-- `DeployResult` of `build/deploy.ts`. -/
structure DeployResult where
  packageName : String
  target : DeployTarget
  url : String
deriving DecidableEq, Repr

/-- `adjustResolvedForTarget` of `build/deploy.ts`: with a (truthy)
`packageName`, override only that package's target and flip its mode to
remote; otherwise override the target of every package without a truthy
`url`. -/
def adjustResolvedForTarget (resolved : List ResolvedPackage)
    (packageName : Option String) (target : DeployTarget) : List ResolvedPackage :=
  match packageName, truthy packageName with
  | some name, true =>
      resolved.map (fun pkg =>
        if pkg.name == name then
          { pkg with
            deploy := { pkg.deploy with target := some target }
            mode := PackageMode.remote }
        else pkg)
  | _, _ =>
      resolved.map (fun pkg =>
        if truthy pkg.deploy.url then pkg
        else { pkg with deploy := { pkg.deploy with target := some target } })

/-- `filterGroupsForDeploy` of `build/deploy.ts`. -/
def filterGroupsForDeploy (groups : List BuildGroup)
    (packageName : Option String) (target : Option DeployTarget) : List BuildGroup :=
  match packageName, truthy packageName with
  | some name, true =>
      groups.filter (fun g =>
        g.host.name == name || g.colocated.any (fun p => p.name == name))
  | _, _ =>
      if target.isSome then
        groups.filter (fun g => !truthy g.host.deploy.url)
      else groups

/-- Record-level model of `updateConfigSetDeployResult`
(`config-updater.ts`) as the deploy loop of `deployProject` uses it: the
package's entry in the `packages` record becomes `{ target, url }` (the
existing entry — matched by key — is replaced; a missing entry is appended
by the add path).  The mutator's text-level behaviour is embedded
separately below; here only its effect on the parsed configuration record
matters. -/
def setDeployEntry (cfg : KagaribiConfig) (name : String) (target : DeployTarget)
    (url : String) : KagaribiConfig :=
  let entry : PackageDeployConfig :=
    { target := some target, colocateWith := none, url := some url }
  if cfg.packages.any (fun kv => kv.1 == name) then
    { cfg with
      packages := cfg.packages.map (fun kv => if kv.1 == name then (kv.1, entry) else kv) }
  else
    { cfg with packages := cfg.packages ++ [(name, entry)] }

/-- The sequential deploy loop of `deployProject` (`build/deploy.ts`): for
each selected group in order, deploy it (the adapter's `deploy` call is
abstracted as `deployUrl`, the URL the vendor CLI reports), persist
`{ target, url }` for the group's host into the configuration, and append
`{ packageName := host.name, target, url }` to the results. -/
def deployGroups (groupsToDeploy : List BuildGroup) (cfg : KagaribiConfig)
    (deployUrl : BuildGroup → String) : List DeployResult × KagaribiConfig :=
  match groupsToDeploy with
  | [] => ([], cfg)
  | g :: rest =>
      let url := deployUrl g
      let cfgNext := setDeployEntry cfg g.host.name g.target url
      let tail := deployGroups rest cfgNext deployUrl
      ({ packageName := g.host.name, target := g.target, url := url } :: tail.1, tail.2)

/-- The pure selection pipeline of `deployProject` (`build/deploy.ts`):
resolve the scanned packages against the configuration, adjust them when a
target override is supplied, build the plan, and filter the groups to
deploy. -/
def deploySelect (scanned : List (String × ScannedEntry)) (cfg : KagaribiConfig)
    (environment : Option String) (packageName : Option String)
    (target : Option DeployTarget) (projectRoot : String) : List BuildGroup :=
  let resolved := resolvePackages scanned cfg environment
  let adjustedResolved :=
    match target with
    | some t => adjustResolvedForTarget resolved packageName t
    | none => resolved
  let plan := createBuildPlan projectRoot adjustedResolved (environment.getD "default") cfg
  filterGroupsForDeploy plan.groups packageName target

/-! ### Subprocess wrapper (`build/exec.ts`) -/

/-- The outcome of `execFileAsync` as `exec` (`build/exec.ts`) observes it:
either a resolved `{stdout, stderr}`, or a rejection carrying the error's
`code` (an OS error code string such as `"ENOENT"`, when present) and the
captured `stdout`/`stderr` of the failed process. -/
inductive ExecOutcome where
  | success (stdout stderr : String)
  | failure (code : Option String) (stdout stderr : String)
deriving DecidableEq, Repr

/-- `{stdout, stderr}` as `exec` returns it. -/
structure ExecResult where
  stdout : String
  stderr : String
deriving DecidableEq, Repr

/-- What `exec` throws: a freshly constructed `Error` with a message, or
the original error rethrown unchanged. -/
inductive ExecError where
  | wrapped (message : String)
  | raw (code : Option String) (stdout stderr : String)
deriving DecidableEq, Repr

/-- `CLI_INSTALL_HINTS` of `build/exec.ts`. -/
def CLI_INSTALL_HINTS : List (String × String) :=
  [("wrangler", "npm install -g wrangler"),
   ("gcloud", "https://cloud.google.com/sdk/docs/install"),
   ("aws", "https://docs.aws.amazon.com/cli/latest/userguide/getting-started-install.html"),
   ("deployctl", "deno install -A jsr:@deno/deployctl")]

/-- `exec` of `build/exec.ts`, with the subprocess outcome passed
explicitly: on success return `{stdout, stderr}`; on failure with code
`ENOENT` throw a "not found" error with the install hint for known
commands; on failure with truthy captured stderr throw a wrapped error
ending in that stderr; otherwise rethrow the original error. -/
def exec (command : String) (commandArgs : List String) (outcome : ExecOutcome) :
    Except ExecError ExecResult :=
  match outcome with
  | .success stdout stderr => .ok { stdout := stdout, stderr := stderr }
  | .failure code stdout stderr =>
      if code == some ("ENOENT") then
        let installMsg :=
          match lookupRecord CLI_INSTALL_HINTS command with
          | some hint => " Install it with: " ++ hint
          | none => ""
        .error (.wrapped ("Command \"" ++ command ++ "\" not found." ++ installMsg))
      else if !(stderr == "") then
        .error (.wrapped ("Command \"" ++ command ++ " " ++
          (String.intercalate (" ") commandArgs) ++ "\" failed:\n" ++ stderr))
      else
        .error (.raw code stdout stderr)

/-! ### Configuration mutator (`config-updater.ts`)

The mutator is a pure text transformation: it reads `kagaribi.config.ts`,
edits the string, and writes it back with one atomic write.  The embedding
below works on the file content directly (as a `String`, processed as its
`List Char`), so each source function `f(projectRoot, ...)` becomes
`f (content, ...) : Except String String` returning the error message or
the updated content. -/

/-- JavaScript `String.prototype.indexOf(pat)` on character lists: the
first index at which `pat` occurs in `hay` (`indexOfChars hay [] = some 0`,
as in JavaScript). -/
def indexOfChars (hay pat : List Char) : Option Nat :=
  if pat.isPrefixOf hay then some 0
  else
    match hay with
    | [] => none
    | _ :: t => (indexOfChars t pat).map (fun k => k + 1)

/-- `content.slice(s, e)` on character lists. -/
def sliceChars (cs : List Char) (s e : Nat) : List Char :=
  (cs.drop s).take (e - s)

/-- The body of the quoted-literal skip loop of `findPackagesBlock`
(`config-updater.ts`), entered just after the opening quote: the number of
characters the loop consumes before the closing quote (a backslash always
consumes the following character).  Used for single quotes, double quotes
and template literals alike, whose loops are identical in the source. -/
def quotedBody (cs : List Char) (quote : Char) : Nat :=
  match cs with
  | [] => 0
  | c :: t =>
      if c == quote then 0
      else if c == '\\' then
        match t with
        | [] => 2
        | _ :: t2 => 2 + quotedBody t2 quote
      else 1 + quotedBody t quote

/-- The brace-depth scanning loop of `findPackagesBlock`
(`config-updater.ts`), on the text after the opening brace: skip line
comments, block comments, quoted strings and template literals, count brace
depth, and return the number of characters consumed when the depth returns
to zero (`none` when the input ends first).  The loop advances by at least
one character per iteration, so the fuel — one more than the remaining
length at the top call — never runs out before the loop would exit. -/
def scanDepth (fuel : Nat) (cs : List Char) (depth acc : Nat) : Option Nat :=
  match depth with
  | 0 => some acc
  | depth' + 1 =>
      match fuel with
      | 0 => none
      | fuel' + 1 =>
          match cs with
          | [] => none
          | c :: t =>
              if c == '/' && t.head? == some '/' then
                match indexOfChars t ['\n'] with
                | some k => scanDepth fuel' (t.drop (k + 1)) (depth' + 1) (acc + k + 2)
                | none => scanDepth fuel' [] (depth' + 1) (acc + 1 + t.length)
              else if c == '/' && t.head? == some '*' then
                match indexOfChars (t.drop 1) ['*', '/'] with
                | some k => scanDepth fuel' (t.drop (k + 3)) (depth' + 1) (acc + k + 4)
                | none => scanDepth fuel' [] (depth' + 1) (acc + 1 + t.length)
              else if c == '\'' || c == '"' || c == '\x60' then
                let body := quotedBody t c
                scanDepth fuel' (t.drop (body + 1)) (depth' + 1) (acc + body + 2)
              else
                let depthNext := if c == '\x7b' then depth' + 2
                  else if c == '\x7d' then depth' else depth' + 1
                scanDepth fuel' t depthNext (acc + 1)

/-- `findPackagesBlock` of `config-updater.ts` (the string/comment-aware
version): the interior `(start, end)` of the `packages: \x7b ... \x7d`
object literal, where `start` is the index just after the opening brace and
`end` the index of its matching closing brace. -/
def findPackagesBlock (content : String) : Except String (Nat × Nat) :=
  let cs := content.data
  match indexOfChars cs (("packages:").data) with
  | none => .error "Could not find \"packages:\" in kagaribi.config.ts"
  | some packagesIdx =>
      match (indexOfChars (cs.drop packagesIdx) ['\x7b']).map (fun k => k + packagesIdx) with
      | none => .error "Could not find opening brace after \"packages:\""
      | some openBrace =>
          let rest := cs.drop (openBrace + 1)
          match scanDepth (rest.length + 1) rest 1 0 with
          | none => .error "Could not find matching closing brace for \"packages:\" block"
          | some consumed => .ok (openBrace + 1, openBrace + consumed)

/-- JavaScript regex `\s` (whitespace class). -/
def isWsChar (c : Char) : Bool :=
  c == ' ' || c == '\t' || c == '\n' || c == '\r' || c == '\x0B' || c == '\x0C'

/-- JavaScript regex `\w` (word-character class). -/
def isWordChar (c : Char) : Bool :=
  ('a' ≤ c && c ≤ 'z') || ('A' ≤ c && c ≤ 'Z') || ('0' ≤ c && c ≤ '9') || c == '_'

/-- The first match of `detectIndent`'s regex `\n(\s+)\w`
(`config-updater.ts`) scanning from the left: at the first newline followed
by a non-empty whitespace run whose next character is a word character,
capture that whitespace run (`\s` and `\w` are disjoint, so the greedy
`\s+` never backtracks). -/
def findIndentRun (cs : List Char) : Option (List Char) :=
  match cs with
  | [] => none
  | c :: t =>
      if c == '\n' then
        let ws := t.takeWhile isWsChar
        match ws, t.drop ws.length with
        | _ :: _, d :: _ => if isWordChar d then some ws else findIndentRun t
        | _, _ => findIndentRun t
      else findIndentRun t

/-- `detectIndent` of `config-updater.ts`: infer the entry indentation from
the block content starting at `blockStart`, defaulting to four spaces. -/
def detectIndent (cs : List Char) (blockStart : Nat) : List Char :=
  (findIndentRun (cs.drop blockStart)).getD (("    ").data)

/-- `formatObjectKey` of `config-updater.ts`: bare identifiers stay bare,
anything else is single-quoted (`/^[a-zA-Z_$][a-zA-Z0-9_$]*$/`). -/
def isIdentStart (c : Char) : Bool :=
  ('a' ≤ c && c ≤ 'z') || ('A' ≤ c && c ≤ 'Z') || c == '_' || c == '$'

/-- The continuation characters of the identifier test in `formatObjectKey`. -/
def isIdentChar (c : Char) : Bool :=
  isIdentStart c || ('0' ≤ c && c ≤ '9')

/-- `formatObjectKey` of `config-updater.ts`. -/
def formatObjectKey (name : String) : String :=
  match name.data with
  | [] => "'" ++ name ++ "'"
  | c :: t => if isIdentStart c && t.all isIdentChar then name else "'" ++ name ++ "'"

/-- `configToString` of `config-updater.ts`: serialize the present (truthy)
fields as a one-line object literal. -/
def configToString (config : PackageDeployConfig) : String :=
  let parts : List String :=
    (match config.target with
     | some t => ["target: '" ++ targetToString t ++ "'"]
     | none => []) ++
    (match config.colocateWith with
     | some c => if c == "" then [] else ["colocateWith: '" ++ c ++ "'"]
     | none => []) ++
    (match config.url with
     | some u => if u == "" then [] else ["url: '" ++ u ++ "'"]
     | none => [])
  "\x7b " ++ String.intercalate (", ") parts ++ " \x7d"

/-- A single quote or double quote, as the regex class `['"]` matches. -/
def isQuoteChar (c : Char) : Bool :=
  c == '\'' || c == '"'

/-- Regex `\s*` then a literal `:`: the tail of the existence pattern of
`updateConfigAddPackage`. -/
def wsThenColon (cs : List Char) : Bool :=
  match cs.dropWhile isWsChar with
  | c :: _ => c == ':'
  | [] => false

/-- A regex word boundary `\b` at position `i` of `block`: exactly one of
the character before and the character at `i` is a word character
(positions outside the text count as non-word). -/
def wordBoundaryAt (block : List Char) (i : Nat) : Bool :=
  let next := match block.drop i with
    | c :: _ => isWordChar c
    | [] => false
  let prev := match i, block.drop (i - 1) with
    | 0, _ => false
    | _ + 1, c :: _ => isWordChar c
    | _ + 1, [] => false
  next != prev

/-- A match of `updateConfigAddPackage`'s existence pattern
`(?:['"]key['"]|\bkey)\s*:` starting at position `i` of `block` (the key is
regex-escaped in the source, hence a literal here). -/
def keyMatchAt (block key : List Char) (i : Nat) : Bool :=
  let rest := block.drop i
  (match rest with
   | q :: r2 =>
       isQuoteChar q && key.isPrefixOf r2 &&
         (match r2.drop key.length with
          | q2 :: r3 => isQuoteChar q2 && wsThenColon r3
          | [] => false)
   | [] => false)
  || (wordBoundaryAt block i && key.isPrefixOf rest && wsThenColon (rest.drop key.length))

/-- `existingPattern.test(packagesBlock)` of `updateConfigAddPackage`: the
pattern matches at some position of the block's interior. -/
def keyExists (block key : List Char) : Bool :=
  (List.range (block.length + 1)).any (keyMatchAt block key)

/-- The `\x7b packageName, config \x7d` entry argument of the mutator. -/
structure ConfigUpdateEntry where
  packageName : String
  config : PackageDeployConfig
deriving DecidableEq, Repr

/-- `updateConfigAddPackage` of `config-updater.ts` (the version that
restricts the duplicate check to the packages block), as a pure transform
of the file content. -/
def updateConfigAddPackage (content : String) (entry : ConfigUpdateEntry) :
    Except String String :=
  match findPackagesBlock content with
  | .error e => .error e
  | .ok (s, e) =>
      let cs := content.data
      let packagesBlock := sliceChars cs s e
      if keyExists packagesBlock entry.packageName.data then
        .error ("Package \"" ++ entry.packageName ++ "\" already exists in kagaribi.config.ts")
      else
        let indent := detectIndent cs s
        let key := formatObjectKey entry.packageName
        let configStr := configToString entry.config
        let newEntry := indent ++ key.data ++ (": ").data ++ configStr.data ++ [',', '\n']
        let beforeClose := cs.take e
        let afterClose := cs.drop e
        let separator : List Char := if beforeClose.getLast? == some '\n' then [] else ['\n']
        .ok ((beforeClose ++ separator ++ newEntry ++ afterClose).asString)

/-- The tail of `updateConfigSetDeployResult`'s entry pattern after the
captured leading whitespace: `(?:['"]key['"]|key)\s*:\s*\x7b[^\x7d]*\x7d\s*,?`
matched at position `j` of `block`, returning the number of characters it
consumes.  The quoted alternative is tried first, the bare one on
backtracking, as the regex engine does. -/
def entryTailFrom (rest : List Char) : Nat → Option Nat :=
  fun klen =>
    let r := rest.drop klen
    let ws1 := r.takeWhile isWsChar
    match r.drop ws1.length with
    | ':' :: r2 =>
        let ws2 := r2.takeWhile isWsChar
        match r2.drop ws2.length with
        | b :: r3 =>
            if b == '\x7b' then
              let body := r3.takeWhile (fun c => !(c == '\x7d'))
              match r3.drop body.length with
              | _ :: r4 =>
                  let ws3 := r4.takeWhile isWsChar
                  let commaLen := match r4.drop ws3.length with
                    | ',' :: _ => 1
                    | _ => 0
                  some (klen + ws1.length + 1 + ws2.length + 1 + body.length + 1 +
                    ws3.length + commaLen)
              | [] => none
            else none
        | [] => none
    | _ => none

/-- The key alternation plus tail of the entry pattern at position `j` of
`block`: total consumed length, `none` when no match starts there. -/
def entryTailMatch (block key : List Char) (j : Nat) : Option Nat :=
  let rest := block.drop j
  let quoted : Option Nat :=
    match rest with
    | q :: r2 =>
        if isQuoteChar q && key.isPrefixOf r2 then
          match r2.drop key.length with
          | q2 :: _ => if isQuoteChar q2 then some (key.length + 2) else none
          | [] => none
        else none
    | [] => none
  match quoted.bind (entryTailFrom rest) with
  | some n => some n
  | none => if key.isPrefixOf rest then entryTailFrom rest key.length else none

/-- The greedy, backtracking `(\s*)` capture at match position `i`: try the
longest whitespace prefix first and shrink until the pattern tail matches.
Returns `(total length, captured whitespace length)`. -/
def tryWsLens (block key : List Char) (i : Nat) : Nat → Option (Nat × Nat)
  | 0 => (entryTailMatch block key i).map (fun l => (l, 0))
  | w + 1 =>
      match entryTailMatch block key (i + w + 1) with
      | some l => some (w + 1 + l, w + 1)
      | none => tryWsLens block key i w

/-- A match of the whole entry pattern starting at position `i` of `block`:
`(total length, captured whitespace length)`. -/
def entryMatchAt (block key : List Char) (i : Nat) : Option (Nat × Nat) :=
  let maxWs := ((block.drop i).takeWhile isWsChar).length
  tryWsLens block key i maxWs

/-- `packagesBlock.match(entryPattern)` of `updateConfigSetDeployResult`:
the leftmost match, as `(start, total length, captured whitespace length)`. -/
def firstEntryMatch (block key : List Char) : Option (Nat × Nat × Nat) :=
  (List.range (block.length + 1)).findSome? (fun i =>
    (entryMatchAt block key i).map (fun p => (i, p.1, p.2)))

/-- A decimal digit, as the substitution algorithm classifies one. -/
def isDigitChar (c : Char) : Bool :=
  '0' ≤ c && c ≤ '9'

/-- ECMAScript `GetSubstitution` for a string replacement passed to
`String.prototype.replace`, specialised to `updateConfigSetDeployResult`'s
entry pattern: one capture group (the leading `(\s*)`, always defined) and
no named captures.  `matched` is the matched substring, `before`/`after`
the parts of the subject string around the match, `capture1` the capture.
Dollar patterns: `$$` a dollar, `$&` the match, a dollar before a
backquote the preceding text, `$'` the following text, `$1`/`$01` the
capture; a two-digit index over the capture count falls back to one digit,
an index of zero or over the count stays literal; `$<` stays literal (no
named groups); any other dollar stays literal.  This matters because the
replacement template embeds the caller-supplied key and URL, so dollar
characters in them are substituted by the program. -/
def applyDollarFuel (matched before after capture1 : List Char) :
    Nat → List Char → List Char
  | _, [] => []
  | 0, _ => []
  | fuel + 1, c :: rest =>
      if c == '$' then
        match rest with
        | [] => ['$']
        | c2 :: r2 =>
            if c2 == '$' then '$' :: applyDollarFuel matched before after capture1 fuel r2
            else if c2 == '&' then
              matched ++ applyDollarFuel matched before after capture1 fuel r2
            else if c2 == '\x60' then
              before ++ applyDollarFuel matched before after capture1 fuel r2
            else if c2 == '\'' then
              after ++ applyDollarFuel matched before after capture1 fuel r2
            else if c2 == '<' then
              '$' :: '<' :: applyDollarFuel matched before after capture1 fuel r2
            else if isDigitChar c2 then
              match r2 with
              | c3 :: r3 =>
                  if isDigitChar c3 then
                    if c2 == '0' && c3 == '1' then
                      capture1 ++ applyDollarFuel matched before after capture1 fuel r3
                    else if c2 == '1' then
                      capture1 ++ applyDollarFuel matched before after capture1 fuel (c3 :: r3)
                    else
                      '$' :: c2 :: applyDollarFuel matched before after capture1 fuel (c3 :: r3)
                  else
                    if c2 == '1' then
                      capture1 ++ applyDollarFuel matched before after capture1 fuel (c3 :: r3)
                    else
                      '$' :: c2 :: applyDollarFuel matched before after capture1 fuel (c3 :: r3)
              | [] => if c2 == '1' then capture1 else ['$', c2]
            else '$' :: applyDollarFuel matched before after capture1 fuel rest
      else c :: applyDollarFuel matched before after capture1 fuel rest

/-- `applyDollarFuel` at its template, with fuel covering the whole scan
(every step consumes at least one template character). -/
def applyDollar (template matched before after capture1 : List Char) : List Char :=
  applyDollarFuel matched before after capture1 (template.length + 1) template

/-- `updateConfigSetDeployResult` of `config-updater.ts` (the version that
matches inside the packages block only), as a pure transform of the file
content: `packagesBlock.replace(entryPattern, replacement)` replaces the
first matched entry by the replacement template
`indent + key + ': ' + configStr + ','` with ECMAScript dollar-pattern
substitution applied to the template (`applyDollar`), then the untouched
text around the block is spliced back in; fall back to
`updateConfigAddPackage` when no entry matches. -/
def updateConfigSetDeployResult (content : String) (packageName : String)
    (target : DeployTarget) (url : String) : Except String String :=
  let config : PackageDeployConfig := { target := some target, url := some url }
  let configStr := configToString config
  let key := formatObjectKey packageName
  match findPackagesBlock content with
  | .error e => .error e
  | .ok (s, e) =>
      let cs := content.data
      let packagesBlock := sliceChars cs s e
      match firstEntryMatch packagesBlock packageName.data with
      | some (i, len, wsLen) =>
          let indent := (packagesBlock.drop i).take wsLen
          let replacementTemplate :=
            indent ++ key.data ++ (": ").data ++ configStr.data ++ [',']
          let matched := (packagesBlock.drop i).take len
          let beforeMatch := packagesBlock.take i
          let afterMatch := packagesBlock.drop (i + len)
          let inserted := applyDollar replacementTemplate matched beforeMatch afterMatch indent
          let updatedBlock := beforeMatch ++ inserted ++ afterMatch
          .ok ((cs.take s ++ updatedBlock ++ cs.drop e).asString)
      | none =>
          updateConfigAddPackage content
            { packageName := packageName, config := config }

/-! ### Concrete inputs used by the claim theorems and witnesses -/

/-- A resolved package as the planner tests build one (`build.test.ts`'s
`makePkg`): path and definition derived from the name, mode derived from
the deploy config as `resolvePackages` derives it. -/
def mkTestPkg (name : String) (deploy : PackageDeployConfig) : ResolvedPackage :=
  { name := name
    path := "/project/packages/" ++ name
    definition := { name := name }
    deploy := deploy
    mode := deriveMode deploy }

/-- Scenario A of the spec: `root` hosting `auth` and `users`. -/
def scenarioA : List ResolvedPackage :=
  [mkTestPkg "root" { target := some DeployTarget.node },
   mkTestPkg "auth" { colocateWith := some "root" },
   mkTestPkg "users" { colocateWith := some "root" }]

/-- A package whose `colocateWith` names a host that does not exist. -/
def danglingPkg : ResolvedPackage :=
  mkTestPkg "app" { colocateWith := some "ghost" }

/-- A package carrying both a `colocateWith` reference and a non-empty
`url`. -/
def urlAndColoc : ResolvedPackage :=
  mkTestPkg "users" { colocateWith := some "root", url := some "https://users.example" }

/-- The scanned map for a one-package project whose config sets both
`colocateWith` and `url` for `auth`. -/
def scannedC3 : List (String × ScannedEntry) :=
  [("auth", { path := "/project/packages/auth", definition := { name := "auth" } })]

/-- Configuration giving `auth` both `colocateWith: 'root'` and a
non-empty `url`. -/
def configC3 : KagaribiConfig :=
  { packages := [("auth",
      { colocateWith := some "root", url := some "https://auth.example" })] }

/-- The scanned map of Scenario B: `root`, `auth`, `users`. -/
def scannedB : List (String × ScannedEntry) :=
  [("root", { path := "/project/packages/root", definition := { name := "root" } }),
   ("auth", { path := "/project/packages/auth", definition := { name := "auth" } }),
   ("users", { path := "/project/packages/users", definition := { name := "users" } })]

/-- The configuration of Scenario B:
`\x7broot: \x7btarget: 'cloudflare-workers'\x7d, auth: \x7bcolocateWith: 'root'\x7d,
users: \x7btarget: 'aws-lambda', url: '$USERS_URL'\x7d\x7d`. -/
def configB : KagaribiConfig :=
  { packages :=
      [("root", { target := some DeployTarget.cloudflareWorkers }),
       ("auth", { colocateWith := some "root" }),
       ("users", { target := some DeployTarget.awsLambda, url := some "$USERS_URL" })] }

/-- The resolved packages of Scenario B for environment `production`. -/
def resolvedB : List ResolvedPackage :=
  resolvePackages scannedB configB (some "production")

/-- The build plan of Scenario B. -/
def planB : BuildPlan :=
  createBuildPlan "/project" resolvedB "production" configB

/-- Scenario C's configuration file: imports, a packages block and an
`environments` section that also mentions `auth`. -/
def fileScenarioC : String :=
  "import \x7b defineConfig \x7d from '@kagaribi/core';\n\nexport default defineConfig(\x7b\n  packages: \x7b\n    root: \x7b target: 'node' \x7d,\n    auth: \x7b colocateWith: 'root' \x7d,\n  \x7d,\n  environments: \x7b\n    production: \x7b packages: \x7b auth: \x7b target: 'node' \x7d \x7d \x7d,\n  \x7d,\n\x7d);\n"

/-- Scenario C's expected output: only the `auth` entry's value replaced. -/
def fileScenarioCOut : String :=
  "import \x7b defineConfig \x7d from '@kagaribi/core';\n\nexport default defineConfig(\x7b\n  packages: \x7b\n    root: \x7b target: 'node' \x7d,\n    auth: \x7b target: 'aws-lambda', url: 'https://auth.lambda.aws' \x7d,\n  \x7d,\n  environments: \x7b\n    production: \x7b packages: \x7b auth: \x7b target: 'node' \x7d \x7d \x7d,\n  \x7d,\n\x7d);\n"

/-- A configuration file whose `auth` entry has no trailing comma: the
entry pattern's `\s*,?` then swallows the newline and indentation that
belong to the following `root` entry. -/
def fileNoComma : String :=
  "export default defineConfig(\x7b\n  packages: \x7b\n    auth: \x7b colocateWith: 'root' \x7d\n    root: \x7b target: 'node' \x7d,\n  \x7d,\n\x7d);\n"

/-- What the mutator actually produces on `fileNoComma`: the newline and
four spaces before `root` are deleted and a comma is appended. -/
def fileNoCommaOut : String :=
  "export default defineConfig(\x7b\n  packages: \x7b\n    auth: \x7b target: 'aws-lambda', url: 'https://auth.lambda.aws' \x7d,root: \x7b target: 'node' \x7d,\n  \x7d,\n\x7d);\n"

/-- What `fileNoComma` would become if only the entry's object-literal
value were replaced and every other byte kept. -/
def fileNoCommaClaimed : String :=
  "export default defineConfig(\x7b\n  packages: \x7b\n    auth: \x7b target: 'aws-lambda', url: 'https://auth.lambda.aws' \x7d\n    root: \x7b target: 'node' \x7d,\n  \x7d,\n\x7d);\n"

/-- A configuration file where `payments` appears only inside the
`environments` section, not in the packages block. -/
def filePayEnv : String :=
  "const c = \x7b\n  packages: \x7b\n    root: \x7b target: 'node' \x7d,\n  \x7d,\n  environments: \x7b\n    production: \x7b packages: \x7b payments: \x7b url: '$P' \x7d \x7d \x7d,\n  \x7d,\n\x7d;\n"

/-- What `updateConfigAddPackage` produces on `filePayEnv` for
`payments`: the new entry appended immediately before the block's closing
brace with the sibling indentation. -/
def filePayEnvOut : String :=
  "const c = \x7b\n  packages: \x7b\n    root: \x7b target: 'node' \x7d,\n  \n    payments: \x7b target: 'aws-lambda' \x7d,\n\x7d,\n  environments: \x7b\n    production: \x7b packages: \x7b payments: \x7b url: '$P' \x7d \x7d \x7d,\n  \x7d,\n\x7d;\n"

/-- A configuration file that already has a `payments` entry in its
packages block. -/
def filePayBlock : String :=
  "const c = \x7b\n  packages: \x7b\n    payments: \x7b target: 'node' \x7d,\n  \x7d,\n\x7d;\n"

/-- The scanned map of the idempotence witness: `root` and `auth`. -/
def scannedC6 : List (String × ScannedEntry) :=
  [("root", { path := "/project/packages/root", definition := { name := "root" } }),
   ("auth", { path := "/project/packages/auth", definition := { name := "auth" } })]

/-- The configuration of the idempotence witness: `auth` co-located with
`root`, no URLs yet. -/
def configC6 : KagaribiConfig :=
  { packages := [("root", {}), ("auth", { colocateWith := some "root" })] }

/-- A constant deploy oracle for witnesses: every deploy reports the same
non-empty URL. -/
def constUrl : BuildGroup → String :=
  fun _ => "https://deployed.example"

/-- A two-package group (host `root`, colocated `auth`) whose host already
carries a URL: used to witness that an explicit package name bypasses the
already-deployed filter. -/
def groupC10 : BuildGroup :=
  { host := mkTestPkg "root"
      { target := some DeployTarget.node, url := some "https://root.example" }
    colocated := [mkTestPkg "auth" { colocateWith := some "root" }]
    remotes := []
    target := DeployTarget.node }

/-- The resolved package the C3 configuration produces for `auth`. -/
def c3pkg : ResolvedPackage :=
  { name := "auth"
    path := "/project/packages/auth"
    definition := { name := "auth" }
    deploy := { target := none, colocateWith := some "root", url := some "https://auth.example" }
    mode := PackageMode.«local» }

/-- A placeholder package for total list indexing. -/
def pkgDummy : ResolvedPackage := mkTestPkg "dummy" {}

/-- A placeholder group for total list indexing. -/
def groupDummy : BuildGroup :=
  { host := pkgDummy, colocated := [], remotes := [], target := DeployTarget.node }

/-- The first group of the Scenario B plan (the `root` group). -/
def groupB0 : BuildGroup := planB.groups.getD 0 groupDummy

/-- A resolved set with one proper host and one dangling `colocateWith`. -/
def dangledSet : List ResolvedPackage := [mkTestPkg "root" {}, danglingPkg]

/-- A configuration file for the dollar-substitution case of
`String.prototype.replace`: a plain `auth` entry to be overwritten with a
URL that contains the `$&` replacement pattern. -/
def fileDollar : String :=
  "export default defineConfig(\x7b\n  packages: \x7b\n    auth: \x7b colocateWith: 'root' \x7d,\n  \x7d,\n\x7d);\n"

/-- What the mutator produces on `fileDollar` for the URL
`https://x.example?m=$&`: `String.replace` expands `$&` to the whole
matched entry, so the matched text reappears inside the URL quotes. -/
def fileDollarOut : String :=
  "export default defineConfig(\x7b\n  packages: \x7b\n    auth: \x7b target: 'aws-lambda', url: 'https://x.example?m=\n    auth: \x7b colocateWith: 'root' \x7d,' \x7d,\n  \x7d,\n\x7d);\n"

/-- The add-package request used by the C7 theorems. -/
def entryPay : ConfigUpdateEntry :=
  { packageName := "payments", config := { target := some DeployTarget.awsLambda } }

/-! ### General helper lemmas -/

set_option maxRecDepth 10000

/-- A falsy independence test is exactly: truthy `colocateWith` and falsy
`url`. -/
theorem not_independent_iff (p : ResolvedPackage) :
    isIndependent p = false ↔
      (truthy p.deploy.colocateWith = true ∧ truthy p.deploy.url = false) := by
  unfold isIndependent
  cases truthy p.deploy.colocateWith <;> cases truthy p.deploy.url <;> simp

/-- Summing an indicator of a key over a duplicate-free key list that
contains the key gives one. -/
theorem sum_map_indicator_eq_one (keys : List String) (k0 : String)
    (hk : keys.Nodup) (hmem : k0 ∈ keys) :
    (keys.map (fun k => if k0 = k then 1 else 0)).sum = 1 := by
  induction keys with
  | nil => cases hmem
  | cons k rest ih =>
      rcases List.nodup_cons.mp hk with ⟨hknot, hrest⟩
      by_cases hek : k0 = k
      · subst hek
        have hzero : (rest.map (fun k => if k0 = k then 1 else 0)).sum = 0 := by
          rw [List.sum_eq_zero]
          intro x hx
          rcases List.mem_map.mp hx with ⟨k', hk', hval⟩
          have : ¬(k0 = k') := fun h => hknot (h ▸ hk')
          simp [this] at hval
          omega
        simp [hzero]
      · have hmem' : k0 ∈ rest := by
          rcases List.mem_cons.mp hmem with h | h
          · exact absurd h hek
          · exact h
        simp [hek, ih hrest hmem']

/-- Summing, over a duplicate-free list of keys, the number of elements of
`xs` carrying each key counts every element of `xs` exactly once, provided
every element's key is among the keys. -/
theorem sum_countP_partition (keys : List String) (xs : List ResolvedPackage)
    (hk : keys.Nodup)
    (hx : ∀ x ∈ xs, ∃ k ∈ keys, x.deploy.colocateWith = some k) :
    (keys.map (fun k => xs.countP (fun x => x.deploy.colocateWith == some k))).sum
      = xs.length := by
  induction xs with
  | nil => simp
  | cons x rest ih =>
      have hxrest : ∀ y ∈ rest, ∃ k ∈ keys, y.deploy.colocateWith = some k :=
        fun y hy => hx y (List.mem_cons_of_mem x hy)
      rcases hx x (List.mem_cons_self x rest) with ⟨k0, hk0, hcol⟩
      have step : ∀ k : String,
          (x :: rest).countP (fun y => y.deploy.colocateWith == some k)
            = rest.countP (fun y => y.deploy.colocateWith == some k)
              + (if k0 = k then 1 else 0) := by
        intro k
        rw [List.countP_cons]
        congr 1
        rw [hcol]
        by_cases h : k0 = k <;> simp [h]
      calc (keys.map (fun k =>
              (x :: rest).countP (fun y => y.deploy.colocateWith == some k))).sum
          = (keys.map (fun k =>
              rest.countP (fun y => y.deploy.colocateWith == some k)
                + (if k0 = k then 1 else 0))).sum := by
            congr 1
            exact List.map_congr_left (fun k _ => step k)
        _ = (keys.map (fun k =>
              rest.countP (fun y => y.deploy.colocateWith == some k))).sum
              + (keys.map (fun k => if k0 = k then 1 else 0)).sum := by
            rw [← List.sum_map_add]
        _ = rest.length + 1 := by
            rw [ih hxrest, sum_map_indicator_eq_one keys k0 hk hk0]
        _ = (x :: rest).length := by simp [Nat.add_comm]

/-- The co-located list of a host counts, among the non-independent
packages, exactly those whose `colocateWith` is the host's name. -/
theorem colocatedFor_length (resolved : List ResolvedPackage) (k : String) :
    (colocatedFor resolved k).length
      = (resolved.filter (fun p => !isIndependent p)).countP
          (fun p => p.deploy.colocateWith == some k) := by
  rw [colocatedFor, ← List.countP_eq_length_filter, List.countP_filter]
  apply List.countP_congr
  intro p _
  unfold isIndependent
  cases truthy p.deploy.colocateWith <;> cases truthy p.deploy.url <;> simp

/-- The host names of a plan are duplicate-free whenever the resolved
package names are. -/
theorem hostNames_nodup (resolved : List ResolvedPackage)
    (hnames : (resolved.map (fun p => p.name)).Nodup) :
    ((resolved.filter isIndependent).map (fun h => h.name)).Nodup := by
  have hsub : List.Sublist (resolved.filter isIndependent) resolved :=
    List.filter_sublist resolved
  exact hnames.sublist (hsub.map (fun h => h.name))

/-- The groups of a plan, unfolded: one group per independent package, in
order. -/
theorem createBuildPlan_groups (projectRoot environment : String) (cfg : KagaribiConfig)
    (resolved : List ResolvedPackage) :
    (createBuildPlan projectRoot resolved environment cfg).groups
      = (resolved.filter isIndependent).map (fun host =>
          { host := host
            colocated := colocatedFor resolved host.name
            remotes := (resolved.filter (fun p => truthy p.deploy.url)).filter
              (fun r => !((host.name :: (colocatedFor resolved host.name).map
                  (fun c => c.name)).contains r.name))
            target := host.deploy.target.getD DeployTarget.node }) := rfl

/-- Membership in a host's co-located list, for a package of the resolved
set: exactly the non-independent packages naming this host. -/
theorem mem_colocatedFor (resolved : List ResolvedPackage) (k : String)
    (p : ResolvedPackage) :
    p ∈ colocatedFor resolved k ↔
      (p ∈ resolved ∧ isIndependent p = false ∧ p.deploy.colocateWith = some k) := by
  rw [colocatedFor, List.mem_filter]
  constructor
  · rintro ⟨hp, hcond⟩
    have h1 : truthy p.deploy.colocateWith = true := by
      cases h : truthy p.deploy.colocateWith <;> simp [h] at hcond ⊢
    have h2 : truthy p.deploy.url = false := by
      cases h : truthy p.deploy.url <;> simp [h, h1] at hcond ⊢
    have h3 : p.deploy.colocateWith = some k := by
      have := hcond
      simp [h1, h2] at this
      exact this
    exact ⟨hp, (not_independent_iff p).mpr ⟨h1, h2⟩, h3⟩
  · rintro ⟨hp, hni, hcol⟩
    rcases (not_independent_iff p).mp hni with ⟨h1, h2⟩
    have h1' : truthy (some k) = true := hcol ▸ h1
    refine ⟨hp, ?_⟩
    simp [h1', h2, hcol]

/-- The group sizes of a plan, as a function of the resolved set. -/
theorem plan_sizes (projectRoot environment : String) (cfg : KagaribiConfig)
    (resolved : List ResolvedPackage) :
    (createBuildPlan projectRoot resolved environment cfg).groups.map
        (fun g => 1 + g.colocated.length)
      = (resolved.filter isIndependent).map
          (fun h => 1 + (colocatedFor resolved h.name).length) := by
  rw [createBuildPlan_groups, List.map_map]
  rfl

/-- Counting groups by a predicate on host and co-located members, as a
count over the hosts. -/
theorem plan_countP (projectRoot environment : String) (cfg : KagaribiConfig)
    (resolved : List ResolvedPackage) (p : ResolvedPackage) :
    (createBuildPlan projectRoot resolved environment cfg).groups.countP
        (fun g => g.host == p || g.colocated.contains p)
      = (resolved.filter isIndependent).countP
          (fun h => h == p || (colocatedFor resolved h.name).contains p) := by
  rw [createBuildPlan_groups, List.countP_map]
  rfl

/-- Claim C1, amended: when the resolved package names are duplicate-free
and every non-independent package's `colocateWith` names some independent
package, the plan of `createBuildPlan` is a partition — the group sizes
`1 + |colocated|` sum to the number of resolved packages, and every
resolved package lies in exactly one group (as host or as a co-located
member). -/
theorem c1_partition_amended (projectRoot environment : String) (cfg : KagaribiConfig)
    (resolved : List ResolvedPackage)
    (hnames : (resolved.map (fun p => p.name)).Nodup)
    (hrefs : ∀ p ∈ resolved, isIndependent p = false →
      ∃ h ∈ resolved, isIndependent h = true ∧ p.deploy.colocateWith = some h.name) :
    (((createBuildPlan projectRoot resolved environment cfg).groups.map
        (fun g => 1 + g.colocated.length)).sum = resolved.length) ∧
    (∀ p ∈ resolved,
      ((createBuildPlan projectRoot resolved environment cfg).groups.countP
        (fun g => g.host == p || g.colocated.contains p)) = 1) := by
  have hresnd : resolved.Nodup := List.Nodup.of_map _ hnames
  have hostsND := hostNames_nodup resolved hnames
  constructor
  · -- the sizes sum to the number of resolved packages
    rw [plan_sizes]
    have hstep : (resolved.filter isIndependent).map
        (fun h => 1 + (colocatedFor resolved h.name).length)
        = (resolved.filter isIndependent).map (fun h =>
            1 + (resolved.filter (fun p => !isIndependent p)).countP
              (fun p => p.deploy.colocateWith == some h.name)) := by
      apply List.map_congr_left
      intro h _
      rw [colocatedFor_length]
    rw [hstep, List.sum_map_add]
    have hones : ((resolved.filter isIndependent).map (fun _ => 1)).sum
        = (resolved.filter isIndependent).length := by
      induction resolved.filter isIndependent with
      | nil => rfl
      | cons x t ih =>
          simp [ih]
          omega
    have hpart : ((resolved.filter isIndependent).map (fun h =>
        (resolved.filter (fun p => !isIndependent p)).countP
          (fun p => p.deploy.colocateWith == some h.name))).sum
        = (resolved.filter (fun p => !isIndependent p)).length := by
      have hmm : (resolved.filter isIndependent).map (fun h =>
            (resolved.filter (fun p => !isIndependent p)).countP
              (fun p => p.deploy.colocateWith == some h.name))
          = ((resolved.filter isIndependent).map (fun h => h.name)).map (fun k =>
              (resolved.filter (fun p => !isIndependent p)).countP
                (fun p => p.deploy.colocateWith == some k)) := by
        rw [List.map_map]
        rfl
      rw [hmm]
      apply sum_countP_partition _ _ hostsND
      intro x hx
      rcases List.mem_filter.mp hx with ⟨hxres, hxni⟩
      have hxni' : isIndependent x = false := by
        cases h : isIndependent x
        · rfl
        · rw [h] at hxni; exact absurd hxni (by simp)
      rcases hrefs x hxres hxni' with ⟨h, hhres, hind, hcol⟩
      exact ⟨h.name, List.mem_map_of_mem _ (List.mem_filter.mpr ⟨hhres, hind⟩), hcol⟩
    rw [hones, hpart, ← List.countP_eq_length_filter, ← List.countP_eq_length_filter]
    rw [List.length_eq_countP_add_countP (p := isIndependent) resolved]
    congr 1
    apply List.countP_congr
    intro a _
    simp
  · -- every resolved package lies in exactly one group
    intro p hp
    rw [plan_countP]
    by_cases hip : isIndependent p = true
    · -- `p` is independent: it is a host and in no co-located list
      have hmemh : p ∈ resolved.filter isIndependent := List.mem_filter.mpr ⟨hp, hip⟩
      have hcongr : (resolved.filter isIndependent).countP
            (fun h => h == p || (colocatedFor resolved h.name).contains p)
          = (resolved.filter isIndependent).countP (fun h => h == p) := by
        apply List.countP_congr
        intro h _
        have hnc : (colocatedFor resolved h.name).contains p = false := by
          rw [List.contains_eq_any_beq]
          rw [List.any_eq_false]
          intro q hq
          rcases (mem_colocatedFor resolved h.name q).mp hq with ⟨_, hqni, _⟩
          intro hbeq
          have : p = q := eq_of_beq hbeq
          rw [this] at hip
          rw [hip] at hqni
          cases hqni
        rw [hnc]
        simp
      rw [hcongr]
      have : (resolved.filter isIndependent).countP (fun h => h == p)
          = (resolved.filter isIndependent).count p := rfl
      rw [this]
      exact List.count_eq_one_of_mem (hresnd.filter _) hmemh
    · -- `p` is co-located: it is in exactly the group of its host
      have hip' : isIndependent p = false := by
        cases h : isIndependent p
        · rfl
        · exact absurd h hip
      rcases hrefs p hp hip' with ⟨h0, hh0, hind0, hcol0⟩
      have hcongr : (resolved.filter isIndependent).countP
            (fun h => h == p || (colocatedFor resolved h.name).contains p)
          = (resolved.filter isIndependent).countP (fun h => h.name == h0.name) := by
        apply List.countP_congr
        intro h hh
        have hhind : isIndependent h = true := (List.mem_filter.mp hh).2
        have hhost : (h == p) = false := by
          apply beq_false_of_ne
          intro he
          rw [he] at hhind
          rw [hhind] at hip'
          cases hip'
        rw [hhost]
        have hcl : (colocatedFor resolved h.name).contains p
            = (h.name == h0.name) := by
          by_cases he : h.name = h0.name
          · have hmem : p ∈ colocatedFor resolved h.name :=
              (mem_colocatedFor resolved h.name p).mpr ⟨hp, hip', he ▸ hcol0⟩
            have hc1 : (colocatedFor resolved h.name).contains p = true := by
              rw [List.contains_eq_any_beq, List.any_eq_true]
              exact ⟨p, hmem, by simp⟩
            have hbeq1 : (h.name == h0.name) = true := by
              rw [he]
              simp
            rw [hc1, hbeq1]
          · have hnmem : p ∉ colocatedFor resolved h.name := by
              intro hmem
              rcases (mem_colocatedFor resolved h.name p).mp hmem with ⟨_, _, hc⟩
              rw [hcol0] at hc
              exact he (Option.some.inj hc).symm
            have hc0 : (colocatedFor resolved h.name).contains p = false := by
              rw [List.contains_eq_any_beq, List.any_eq_false]
              intro q hq hbeq
              cases eq_of_beq hbeq
              exact hnmem hq
            rw [hc0, beq_false_of_ne he]
        rw [hcl]
        simp
      rw [hcongr]
      have hmap : (resolved.filter isIndependent).countP (fun h => h.name == h0.name)
          = ((resolved.filter isIndependent).map (fun h => h.name)).countP
              (fun k => k == h0.name) := by
        rw [List.countP_map]
        rfl
      rw [hmap]
      have : ((resolved.filter isIndependent).map (fun h => h.name)).countP
          (fun k => k == h0.name)
          = ((resolved.filter isIndependent).map (fun h => h.name)).count h0.name := rfl
      rw [this]
      apply List.count_eq_one_of_mem hostsND
      exact List.mem_map_of_mem _ (List.mem_filter.mpr ⟨hh0, hind0⟩)

/-- Claim C1, counterexample: a resolved set containing one package whose
`colocateWith` names a nonexistent host yields a plan with no group at
all — the package appears in zero groups and the group sizes sum to `0`,
not to the number of resolved packages (`1`). -/
theorem c1_counterexample :
    (((createBuildPlan "/p" [danglingPkg] "dev" {}).groups.map
        (fun g => 1 + g.colocated.length)).sum = 0) ∧
    ([danglingPkg] : List ResolvedPackage).length = 1 ∧
    ((createBuildPlan "/p" [danglingPkg] "dev" {}).groups.countP
        (fun g => g.host == danglingPkg || g.colocated.contains danglingPkg)) = 0 :=
  ⟨rfl, rfl, rfl⟩

/-- Claim C1, witness: the partition invariant holds on Scenario A
(`root` hosting `auth` and `users`). -/
theorem c1_partition_witness :
    ((scenarioA.map (fun p => p.name)).Nodup) ∧
    (((createBuildPlan "/project" scenarioA "development" {}).groups.map
        (fun g => 1 + g.colocated.length)).sum = scenarioA.length) ∧
    (∀ p ∈ scenarioA,
      ((createBuildPlan "/project" scenarioA "development" {}).groups.countP
        (fun g => g.host == p || g.colocated.contains p)) = 1) := by
  have h := c1_partition_amended "/project" "development" {} scenarioA
    (by decide) (by decide)
  exact ⟨by decide, h.1, h.2⟩

/-- Claim C2: a resolved package with both a truthy `colocateWith` and a
truthy `url` is planned as a host of its own group and appears in no
group's co-located list. -/
theorem c2_url_overrides_colocation (projectRoot environment : String)
    (cfg : KagaribiConfig) (resolved : List ResolvedPackage) (p : ResolvedPackage)
    (hp : p ∈ resolved)
    (hc : truthy p.deploy.colocateWith = true)
    (hu : truthy p.deploy.url = true) :
    (∃ g ∈ (createBuildPlan projectRoot resolved environment cfg).groups, g.host = p) ∧
    (∀ g ∈ (createBuildPlan projectRoot resolved environment cfg).groups,
      p ∉ g.colocated) := by
  have hind : isIndependent p = true := by
    unfold isIndependent
    rw [hu]
    simp
  rw [createBuildPlan_groups]
  constructor
  · exact ⟨_, List.mem_map_of_mem _ (List.mem_filter.mpr ⟨hp, hind⟩), rfl⟩
  · intro g hg hmem
    rcases List.mem_map.mp hg with ⟨h, _, rfl⟩
    rcases (mem_colocatedFor resolved h.name p).mp hmem with ⟨_, hni, _⟩
    rcases (not_independent_iff p).mp hni with ⟨_, hu'⟩
    rw [hu] at hu'
    cases hu'

/-- Claim C2, witness: the package with both `colocateWith: 'root'` and a
URL becomes its own host next to `root` and is co-located nowhere. -/
theorem c2_witness :
    truthy urlAndColoc.deploy.colocateWith = true ∧
    truthy urlAndColoc.deploy.url = true ∧
    (∃ g ∈ (createBuildPlan "/project" [mkTestPkg "root" {}, urlAndColoc]
        "production" {}).groups, g.host = urlAndColoc) ∧
    (∀ g ∈ (createBuildPlan "/project" [mkTestPkg "root" {}, urlAndColoc]
        "production" {}).groups, urlAndColoc ∉ g.colocated) := by
  have h := c2_url_overrides_colocation "/project" "production" {}
    [mkTestPkg "root" {}, urlAndColoc] urlAndColoc (by decide) (by decide) (by decide)
  exact ⟨by decide, by decide, h.1, h.2⟩

/-- Claim C3, counterexample: with `colocateWith: 'root'` and
`url: 'https://auth.example'` both set, `resolvePackages` derives
`mode = 'local'`, not `'remote'` — `colocateWith` wins the mode
derivation. -/
theorem c3_counterexample :
    (resolvePackages scannedC3 configC3 none).map
        (fun p => (truthy p.deploy.url, truthy p.deploy.colocateWith, p.mode))
      = [(true, true, PackageMode.«local»)] := rfl

/-- Claim C3, amended: a package resolved by `resolvePackages` has
`mode = 'remote'` exactly when its merged `url` is truthy and its merged
`colocateWith` is falsy; a truthy `colocateWith` forces `mode = 'local'`
even alongside a URL (the URL overrides co-location only in the planner's
`isIndependent`, not in the derived mode). -/
theorem c3_mode_amended (scanned : List (String × ScannedEntry))
    (cfg : KagaribiConfig) (environment : Option String) (p : ResolvedPackage)
    (hp : p ∈ resolvePackages scanned cfg environment) :
    p.mode = PackageMode.remote ↔
      (truthy p.deploy.url = true ∧ truthy p.deploy.colocateWith = false) := by
  simp only [resolvePackages] at hp
  rcases List.mem_map.mp hp with ⟨kv, _, rfl⟩
  show deriveMode _ = PackageMode.remote ↔ _
  unfold deriveMode
  cases hc : truthy _ <;> cases hu : truthy _ <;> simp [hc, hu]

/-- Claim C3, witness: the amended mode characterization at the concrete
`auth` package of the C3 configuration. -/
theorem c3_witness :
    c3pkg ∈ resolvePackages scannedC3 configC3 none ∧
    (c3pkg.mode = PackageMode.remote ↔
      (truthy c3pkg.deploy.url = true ∧ truthy c3pkg.deploy.colocateWith = false)) :=
  ⟨by decide, c3_mode_amended scannedC3 configC3 none c3pkg (by decide)⟩

/-- Claim C4: a group's remotes are exactly the resolved packages with a
truthy `url` whose name is outside the group's host-plus-colocated name
set; and on Scenario B the plan is the two stated groups. -/
theorem c4_remotes :
    (∀ (projectRoot environment : String) (cfg : KagaribiConfig)
        (resolved : List ResolvedPackage) (g : BuildGroup),
      g ∈ (createBuildPlan projectRoot resolved environment cfg).groups →
        g.remotes = resolved.filter (fun r =>
          !((g.host.name :: g.colocated.map (fun c => c.name)).contains r.name)
            && truthy r.deploy.url)) ∧
    planB.groups.map (fun g =>
        (g.host.name, g.colocated.map (fun c => c.name),
         g.remotes.map (fun rr => rr.name), g.target))
      = [("root", ["auth"], ["users"], DeployTarget.cloudflareWorkers),
         ("users", [], [], DeployTarget.awsLambda)] := by
  constructor
  · intro projectRoot environment cfg resolved g hg
    rw [createBuildPlan_groups] at hg
    rcases List.mem_map.mp hg with ⟨h, _, rfl⟩
    show List.filter _ (List.filter _ resolved) = _
    rw [List.filter_filter]
  · rfl

/-- Claim C4, witness: the remotes characterization instantiated at the
`root` group of Scenario B, whose remotes list is exactly `[users]`. -/
theorem c4_witness :
    groupB0 ∈ planB.groups ∧
    groupB0.remotes = resolvedB.filter (fun r =>
      !((groupB0.host.name :: groupB0.colocated.map (fun c => c.name)).contains r.name)
        && truthy r.deploy.url) ∧
    groupB0.remotes.map (fun r => r.name) = ["users"] := by
  refine ⟨by decide, ?_, by decide⟩
  exact c4_remotes.1 "/project" "production" configB resolvedB groupB0 (by decide)

/-- Claim C8, counterexample: `createBuildPlan` cannot fail — on a resolved
set whose only package has a dangling `colocateWith` it silently returns a
plan with no groups, from which the dangling package is absent. -/
theorem c8_counterexample :
    (createBuildPlan "/p" [danglingPkg] "dev" {}).groups = [] ∧
    isIndependent danglingPkg = false :=
  ⟨rfl, rfl⟩

/-- Claim C8, amended: `createBuildPlan` raises no configuration error for
a dangling `colocateWith`; the package whose reference names no
independent package is silently absent from every group of the emitted
plan. -/
theorem c8_dangling_amended (projectRoot environment : String) (cfg : KagaribiConfig)
    (resolved : List ResolvedPackage) (p : ResolvedPackage)
    (hp : p ∈ resolved) (hni : isIndependent p = false)
    (hdangling : ∀ h ∈ resolved, isIndependent h = true →
      p.deploy.colocateWith ≠ some h.name) :
    ∀ g ∈ (createBuildPlan projectRoot resolved environment cfg).groups,
      g.host ≠ p ∧ p ∉ g.colocated := by
  intro g hg
  rw [createBuildPlan_groups] at hg
  rcases List.mem_map.mp hg with ⟨h, hh, rfl⟩
  rcases List.mem_filter.mp hh with ⟨hhres, hhind⟩
  constructor
  · intro he
    have he' : h = p := he
    rw [he'] at hhind
    rw [hhind] at hni
    cases hni
  · intro hmem
    rcases (mem_colocatedFor resolved h.name p).mp hmem with ⟨_, _, hcol⟩
    exact hdangling h hhres hhind hcol

/-- Claim C8, witness: in a set with a real host `root` and a package
pointing at the nonexistent `ghost`, the emitted plan contains the
dangling package in no group. -/
theorem c8_witness :
    danglingPkg ∈ dangledSet ∧ isIndependent danglingPkg = false ∧
    (∀ g ∈ (createBuildPlan "/p" dangledSet "dev" {}).groups,
      g.host ≠ danglingPkg ∧ danglingPkg ∉ g.colocated) :=
  ⟨by decide, rfl,
   c8_dangling_amended "/p" "dev" {} dangledSet danglingPkg
     (by decide) rfl (by decide)⟩

/-- Claim C7: `updateConfigAddPackage` fails exactly when the duplicate-key
pattern (quoted or bare-with-word-boundary form, followed by optional
whitespace and a colon) matches inside the packages block's interior — text
outside the block cannot trigger the failure — and on success it appends
the new entry, with the detected sibling indentation, immediately before
the block's closing brace. -/
theorem c7_add_package (content : String) (entry : ConfigUpdateEntry) (s e : Nat)
    (hblock : findPackagesBlock content = .ok (s, e)) :
    ((∃ msg, updateConfigAddPackage content entry = .error msg) ↔
      keyExists (sliceChars content.data s e) entry.packageName.data = true) ∧
    (keyExists (sliceChars content.data s e) entry.packageName.data = false →
      updateConfigAddPackage content entry = .ok
        ((content.data.take e
          ++ (if (content.data.take e).getLast? == some '\n' then [] else ['\n'])
          ++ (detectIndent content.data s
          ++ ((formatObjectKey entry.packageName).data
          ++ ((": ").data
          ++ ((configToString entry.config).data ++ [',', '\n']))))
          ++ content.data.drop e).asString)) := by
  unfold updateConfigAddPackage
  rw [hblock]
  by_cases hk : keyExists (sliceChars content.data s e) entry.packageName.data = true
  · constructor
    · simp [hk]
    · intro hfalse
      rw [hk] at hfalse
      cases hfalse
  · have hk' : keyExists (sliceChars content.data s e) entry.packageName.data = false := by
      cases h : keyExists (sliceChars content.data s e) entry.packageName.data
      · rfl
      · exact absurd h hk
    constructor
    · simp [hk']
    · intro _
      simp only [hk']
      simp [List.append_assoc]

/-- Claim C7, witness: adding `payments` to a file that mentions
`payments` only in its `environments` section succeeds and inserts the
entry before the block's closing brace, while a file whose packages block
already holds a `payments` key makes the add fail. -/
theorem c7_witness :
    findPackagesBlock filePayEnv = .ok (25, 58) ∧
    keyExists (sliceChars filePayEnv.data 25 58) ("payments").data = false ∧
    updateConfigAddPackage filePayEnv entryPay = .ok filePayEnvOut ∧
    keyExists (sliceChars filePayBlock.data 25 62) ("payments").data = true ∧
    (∃ msg, updateConfigAddPackage filePayBlock entryPay = .error msg) := by
  refine ⟨rfl, rfl, ?_, rfl, ?_⟩
  · have h := (c7_add_package filePayEnv entryPay 25 58 rfl).2 rfl
    rw [h]
    rfl
  · exact (c7_add_package filePayBlock entryPay 25 62 rfl).1.mpr rfl

/-- Claim C5, counterexample: on a file whose `auth` entry has no trailing
comma, `updateConfigSetDeployResult` does not leave every byte outside the
entry's object-literal value unchanged — the matched span's trailing
`\s*,?` swallows the newline and indentation belonging to the following
`root` entry, and a comma is appended. -/
theorem c5_counterexample :
    updateConfigSetDeployResult fileNoComma "auth" DeployTarget.awsLambda
        "https://auth.lambda.aws" = .ok fileNoCommaOut ∧
    fileNoCommaOut ≠ fileNoCommaClaimed := by
  constructor
  · rfl
  · decide

/-- Claim C5, amended: when the packages block is found at `(s, e)` and the
entry pattern first matches the block interior at `i` with total length
`len` and captured leading whitespace `wsLen`, the mutator's output is
exactly: every byte before the match, then the ECMAScript dollar-pattern
substitution (`applyDollar`, per `String.prototype.replace`) of the
replacement template — captured leading whitespace (the preserved
indentation), formatted key, `': '`, serialized `\x7b target, url \x7d`
literal, comma — then every byte after the matched span.  Bytes outside
the matched entry, including everything outside the packages block, are
unchanged; when the key and URL contain no dollar character the template
is inserted verbatim. -/
theorem c5_frame_amended (content : String) (packageName : String)
    (target : DeployTarget) (url : String) (s e i len wsLen : Nat)
    (hblock : findPackagesBlock content = .ok (s, e))
    (hmatch : firstEntryMatch (sliceChars content.data s e) packageName.data
      = some (i, len, wsLen)) :
    updateConfigSetDeployResult content packageName target url = .ok
      ((content.data.take s
        ++ ((sliceChars content.data s e).take i
        ++ (applyDollar
              (((sliceChars content.data s e).drop i).take wsLen
                ++ ((formatObjectKey packageName).data
                ++ ((": ").data
                ++ ((configToString { target := some target, url := some url }).data
                ++ [',']))))
              (((sliceChars content.data s e).drop i).take len)
              ((sliceChars content.data s e).take i)
              ((sliceChars content.data s e).drop (i + len))
              (((sliceChars content.data s e).drop i).take wsLen)
        ++ (sliceChars content.data s e).drop (i + len)))
        ++ content.data.drop e).asString) := by
  unfold updateConfigSetDeployResult
  rw [hblock]
  simp only [hmatch]
  simp [List.append_assoc]

/-- Claim C5, witness: Scenario C — on the concrete configuration file the
`auth` entry becomes `auth: \x7b target: 'aws-lambda',
url: 'https://auth.lambda.aws' \x7d,` at the same location and the rest of
the file (the `root` entry, the `environments` section, the import line)
is byte-for-byte unchanged; and on `fileDollar`, a URL containing the
replacement pattern `$&` is dollar-substituted by `String.replace`, the
matched entry text reappearing inside the URL quotes. -/
theorem c5_witness :
    (findPackagesBlock fileScenarioC = .ok (91, 160) ∧
     firstEntryMatch (sliceChars fileScenarioC.data 91 160) ("auth").data
       = some (30, 36, 5) ∧
     updateConfigSetDeployResult fileScenarioC "auth" DeployTarget.awsLambda
       "https://auth.lambda.aws" = .ok fileScenarioCOut) ∧
    (findPackagesBlock fileDollar = .ok (43, 82) ∧
     firstEntryMatch (sliceChars fileDollar.data 43 82) ("auth").data
       = some (0, 36, 5) ∧
     updateConfigSetDeployResult fileDollar "auth" DeployTarget.awsLambda
       "https://x.example?m=$&" = .ok fileDollarOut) := by
  refine ⟨⟨rfl, rfl, ?_⟩, ⟨rfl, rfl, ?_⟩⟩
  · have h := c5_frame_amended fileScenarioC "auth" DeployTarget.awsLambda
      "https://auth.lambda.aws" 91 160 30 36 5 rfl rfl
    rw [h]
    rfl
  · have h := c5_frame_amended fileDollar "auth" DeployTarget.awsLambda
      "https://x.example?m=$&" 43 82 0 36 5 rfl rfl
    rw [h]
    rfl

/-- Claim C9: `exec` classifies subprocess failures as specified — a spawn
failure with code `ENOENT` becomes a wrapped "not found" error naming the
command with the vendor install hint (never the raw OS error); a non-zero
exit with captured stderr becomes a wrapped error whose message ends in
that stderr verbatim; a success returns the captured stdout and stderr. -/
theorem c9_exec_classification :
    (∀ (command : String) (commandArgs : List String) (stdout stderr hint : String),
      lookupRecord CLI_INSTALL_HINTS command = some hint →
        exec command commandArgs (.failure (some "ENOENT") stdout stderr)
          = .error (.wrapped ("Command \"" ++ command ++ "\" not found."
              ++ (" Install it with: " ++ hint)))) ∧
    (∀ (command : String) (commandArgs : List String) (code : Option String)
        (stdout stderr : String),
      code ≠ some "ENOENT" → stderr ≠ "" →
        exec command commandArgs (.failure code stdout stderr)
          = .error (.wrapped ("Command \"" ++ command ++ " "
              ++ (String.intercalate (" ") commandArgs) ++ "\" failed:\n" ++ stderr))) ∧
    (∀ (command : String) (commandArgs : List String) (stdout stderr : String),
      exec command commandArgs (.success stdout stderr)
        = .ok { stdout := stdout, stderr := stderr }) := by
  refine ⟨?_, ?_, ?_⟩
  · intro command commandArgs stdout stderr hint hhint
    unfold exec
    simp [hhint]
  · intro command commandArgs code stdout stderr hcode hstderr
    unfold exec
    have h1 : (code == some ("ENOENT")) = false := beq_false_of_ne hcode
    have h2 : (stderr == "") = false := beq_false_of_ne hstderr
    simp [h1, h2]
  · intro command commandArgs stdout stderr
    rfl

/-- Claim C9, witness: the three classifications at concrete outcomes of a
`wrangler deploy` invocation. -/
theorem c9_witness :
    lookupRecord CLI_INSTALL_HINTS ("wrangler") = some ("npm install -g wrangler") ∧
    exec "wrangler" ["deploy"] (.failure (some "ENOENT") "" "")
      = .error (.wrapped
          ("Command \"wrangler\" not found. Install it with: npm install -g wrangler")) ∧
    exec "wrangler" ["deploy"] (.failure (some "1") "" "boom")
      = .error (.wrapped ("Command \"wrangler deploy\" failed:\nboom")) ∧
    exec "wrangler" ["deploy"] (.success "out" "err")
      = .ok { stdout := "out", stderr := "err" } := by
  refine ⟨rfl, ?_, ?_, ?_⟩
  · have h := c9_exec_classification.1 "wrangler" ["deploy"] "" ""
      "npm install -g wrangler" rfl
    rw [h]
    rfl
  · have h := c9_exec_classification.2.1 "wrangler" ["deploy"] (some "1") "" "boom"
      (by decide) (by decide)
    rw [h]
    rfl
  · exact c9_exec_classification.2.2 "wrangler" ["deploy"] "out" "err"

/-! ### Lookup lemmas for the persisted configuration -/

/-- Replacing the entry under key `k` leaves lookups of other keys
unchanged. -/
theorem lookup_replace_ne (l : List (String × PackageDeployConfig)) (k : String)
    (entry : PackageDeployConfig) (n : String) (h : ¬(k = n)) :
    lookupRecord (l.map (fun kv => if kv.1 == k then (kv.1, entry) else kv)) n
      = lookupRecord l n := by
  induction l with
  | nil => rfl
  | cons kv t ih =>
      unfold lookupRecord
      by_cases hk : kv.1 = k
      · have h1 : (kv.1 == k) = true := by
          rw [hk]
          simp
        have h2 : (kv.1 == n) = false := beq_false_of_ne (fun he => h (hk ▸ he))
        simp only [List.map_cons, h1, if_true]
        rw [List.find?_cons_of_neg _ (by simp [h2]), List.find?_cons_of_neg _ (by simp [h2])]
        exact ih
      · have h1 : (kv.1 == k) = false := beq_false_of_ne hk
        simp only [List.map_cons, h1, if_false]
        by_cases hn : kv.1 = n
        · rw [List.find?_cons_of_pos _ (by simp [hn]), List.find?_cons_of_pos _ (by simp [hn])]
          simp
        · rw [List.find?_cons_of_neg _ (by simp [beq_false_of_ne hn]),
            List.find?_cons_of_neg _ (by simp [beq_false_of_ne hn])]
          exact ih

/-- Replacing the entry under a key that is present makes lookups of that
key return the new value. -/
theorem lookup_replace_self (l : List (String × PackageDeployConfig)) (k : String)
    (entry : PackageDeployConfig) (h : l.any (fun kv => kv.1 == k) = true) :
    lookupRecord (l.map (fun kv => if kv.1 == k then (kv.1, entry) else kv)) k
      = some entry := by
  induction l with
  | nil => cases h
  | cons kv t ih =>
      unfold lookupRecord
      by_cases hk : kv.1 = k
      · have h1 : (kv.1 == k) = true := by
          rw [hk]
          simp
        simp only [List.map_cons, h1, if_true]
        rw [List.find?_cons_of_pos _ (by simp [h1])]
        rfl
      · have h1 : (kv.1 == k) = false := beq_false_of_ne hk
        have ht : t.any (fun kv => kv.1 == k) = true := by
          rw [List.any_cons] at h
          rcases Bool.or_eq_true_iff.mp h with h' | h'
          · rw [h1] at h'
            cases h'
          · exact h'
        simp only [List.map_cons, h1, if_false]
        rw [List.find?_cons_of_neg _ (by simp [h1])]
        exact ih ht

/-- Appending a binding for key `k` leaves lookups of other keys
unchanged. -/
theorem lookup_append_ne (l : List (String × PackageDeployConfig)) (k : String)
    (entry : PackageDeployConfig) (n : String) (h : ¬(k = n)) :
    lookupRecord (l ++ [(k, entry)]) n = lookupRecord l n := by
  unfold lookupRecord
  rw [List.find?_append]
  have : List.find? (fun kv => kv.1 == n) [(k, entry)] = none := by
    rw [List.find?_cons_of_neg _ (by simp [beq_false_of_ne h])]
    rfl
  rw [this]
  cases List.find? (fun kv => kv.1 == n) l <;> rfl

/-- Appending a binding for an absent key makes lookups of that key return
the new value. -/
theorem lookup_append_self (l : List (String × PackageDeployConfig)) (k : String)
    (entry : PackageDeployConfig) (h : l.any (fun kv => kv.1 == k) = false) :
    lookupRecord (l ++ [(k, entry)]) k = some entry := by
  unfold lookupRecord
  rw [List.find?_append]
  have hnone : List.find? (fun kv => kv.1 == k) l = none := by
    rw [List.find?_eq_none]
    intro kv hkv
    rw [List.any_eq_false] at h
    exact fun hb => h kv hkv hb
  rw [hnone]
  rw [List.find?_cons_of_pos _ (by simp)]
  rfl

/-- `setDeployEntry` writes `\x7b target, url \x7d` under the host's key. -/
theorem lookup_setDeployEntry_self (cfg : KagaribiConfig) (k : String)
    (t : DeployTarget) (u : String) :
    lookupRecord (setDeployEntry cfg k t u).packages k
      = some { target := some t, colocateWith := none, url := some u } := by
  unfold setDeployEntry
  by_cases h : cfg.packages.any (fun kv => kv.1 == k) = true
  · rw [if_pos h]
    exact lookup_replace_self cfg.packages k _ h
  · rw [if_neg h]
    have h' : cfg.packages.any (fun kv => kv.1 == k) = false := by
      cases hx : cfg.packages.any (fun kv => kv.1 == k)
      · rfl
      · exact absurd hx h
    exact lookup_append_self cfg.packages k _ h'

/-- `setDeployEntry` leaves every other key's lookup unchanged. -/
theorem lookup_setDeployEntry_ne (cfg : KagaribiConfig) (k : String)
    (t : DeployTarget) (u : String) (n : String) (h : ¬(k = n)) :
    lookupRecord (setDeployEntry cfg k t u).packages n
      = lookupRecord cfg.packages n := by
  unfold setDeployEntry
  by_cases hx : cfg.packages.any (fun kv => kv.1 == k) = true
  · rw [if_pos hx]
    exact lookup_replace_ne cfg.packages k _ n h
  · rw [if_neg hx]
    exact lookup_append_ne cfg.packages k _ n h

/-! ### Deploy-loop lemmas -/

/-- With no environment, each package's merged deploy config is exactly its
base entry in `config.packages` (the wildcard and specific overrides are
absent). -/
theorem resolvePackages_none (scanned : List (String × ScannedEntry))
    (cfg : KagaribiConfig) :
    resolvePackages scanned cfg none = scanned.map (fun kv =>
      { name := kv.1
        path := kv.2.path
        definition := kv.2.definition
        deploy := (lookupRecord cfg.packages kv.1).getD {}
        mode := deriveMode ((lookupRecord cfg.packages kv.1).getD {}) }) := rfl

/-- Bulk target adjustment, unfolded. -/
theorem adjustResolvedForTarget_none (resolved : List ResolvedPackage) (t : DeployTarget) :
    adjustResolvedForTarget resolved none t
      = resolved.map (fun pkg =>
          if truthy pkg.deploy.url then pkg
          else { pkg with deploy := { pkg.deploy with target := some t } }) := rfl

/-- Group filtering with a bare target, unfolded: keep exactly the groups
whose host's URL is falsy. -/
theorem filterGroupsForDeploy_none_some (groups : List BuildGroup) (t : DeployTarget) :
    filterGroupsForDeploy groups none (some t)
      = groups.filter (fun g => !truthy g.host.deploy.url) := rfl

/-- The bulk target adjustment changes only the target: name, URL,
`colocateWith` and hence independence are preserved. -/
theorem adjustNone_preserves (pkg : ResolvedPackage) (t : DeployTarget) :
    ((if truthy pkg.deploy.url then pkg
      else { pkg with deploy := { pkg.deploy with target := some t } }).name = pkg.name) ∧
    ((if truthy pkg.deploy.url then pkg
      else { pkg with deploy := { pkg.deploy with target := some t } }).deploy.url
        = pkg.deploy.url) ∧
    ((if truthy pkg.deploy.url then pkg
      else { pkg with deploy := { pkg.deploy with target := some t } }).deploy.colocateWith
        = pkg.deploy.colocateWith) ∧
    (isIndependent (if truthy pkg.deploy.url then pkg
      else { pkg with deploy := { pkg.deploy with target := some t } })
        = isIndependent pkg) := by
  by_cases h : truthy pkg.deploy.url = true
  · rw [if_pos h]
    exact ⟨rfl, rfl, rfl, rfl⟩
  · rw [if_neg h]
    exact ⟨rfl, rfl, rfl, rfl⟩

/-- The deploy loop's results: one `DeployResult` per selected group, in
order, carrying the group host's name, the group's target and the URL the
adapter reported. -/
theorem deployGroups_results (gs : List BuildGroup) (cfg : KagaribiConfig)
    (deployUrl : BuildGroup → String) :
    (deployGroups gs cfg deployUrl).1
      = gs.map (fun g =>
          { packageName := g.host.name, target := g.target, url := deployUrl g }) := by
  induction gs generalizing cfg with
  | nil => rfl
  | cons g rest ih =>
      show ({ packageName := g.host.name, target := g.target, url := deployUrl g }
          :: (deployGroups rest (setDeployEntry cfg g.host.name g.target (deployUrl g))
              deployUrl).1) = _
      rw [ih]
      rfl

/-- Keys that are no deployed host's name keep their binding across the
whole deploy loop. -/
theorem deployGroups_lookup_skip (gs : List BuildGroup) (cfg : KagaribiConfig)
    (deployUrl : BuildGroup → String) (n : String)
    (h : ∀ g ∈ gs, g.host.name ≠ n) :
    lookupRecord (deployGroups gs cfg deployUrl).2.packages n
      = lookupRecord cfg.packages n := by
  induction gs generalizing cfg with
  | nil => rfl
  | cons g rest ih =>
      show lookupRecord (deployGroups rest
          (setDeployEntry cfg g.host.name g.target (deployUrl g)) deployUrl).2.packages n = _
      rw [ih _ (fun g' hg' => h g' (List.mem_cons_of_mem _ hg'))]
      exact lookup_setDeployEntry_ne _ _ _ _ _ (h g (List.mem_cons_self g rest))

/-- After the deploy loop, every deployed host's entry carries a truthy
URL (the adapter URLs being non-empty). -/
theorem deployGroups_lookup_url (gs : List BuildGroup) (cfg : KagaribiConfig)
    (deployUrl : BuildGroup → String) (n : String)
    (hf : ∀ g, deployUrl g ≠ "")
    (h : ∃ g ∈ gs, g.host.name = n) :
    truthy ((lookupRecord (deployGroups gs cfg deployUrl).2.packages n).getD {}).url
      = true := by
  induction gs generalizing cfg with
  | nil =>
      rcases h with ⟨g, hg, _⟩
      cases hg
  | cons g rest ih =>
      show truthy ((lookupRecord (deployGroups rest
          (setDeployEntry cfg g.host.name g.target (deployUrl g))
            deployUrl).2.packages n).getD {}).url = true
      by_cases hr : ∃ g' ∈ rest, g'.host.name = n
      · exact ih _ hr
      · rcases h with ⟨g0, hg0, hname⟩
        have hg0' : g0 = g := by
          rcases List.mem_cons.mp hg0 with h' | h'
          · exact h'
          · exact absurd ⟨g0, h', hname⟩ hr
        have hskip : ∀ g' ∈ rest, g'.host.name ≠ n := by
          intro g' hg' he
          exact hr ⟨g', hg', he⟩
        rw [deployGroups_lookup_skip rest _ deployUrl n hskip]
        rw [← hname, hg0', lookup_setDeployEntry_self]
        show (!(deployUrl g == "")) = true
        rw [beq_false_of_ne (hf g)]
        rfl

/-- With duplicate-free host names, each deployed group's entry is
persisted with that group's target and reported URL. -/
theorem deployGroups_persist (gs : List BuildGroup) (cfg : KagaribiConfig)
    (deployUrl : BuildGroup → String)
    (hnd : (gs.map (fun g => g.host.name)).Nodup) :
    ∀ g ∈ gs, lookupRecord (deployGroups gs cfg deployUrl).2.packages g.host.name
      = some { target := some g.target, colocateWith := none
               url := some (deployUrl g) } := by
  induction gs generalizing cfg with
  | nil =>
      intro g hg
      cases hg
  | cons g0 rest ih =>
      intro g hg
      rcases List.nodup_cons.mp hnd with ⟨hnot, hndrest⟩
      show lookupRecord (deployGroups rest
          (setDeployEntry cfg g0.host.name g0.target (deployUrl g0))
            deployUrl).2.packages g.host.name = _
      rcases List.mem_cons.mp hg with he | hmem
      · subst he
        have hskip : ∀ g' ∈ rest, g'.host.name ≠ g.host.name := by
          intro g' hg' hee
          apply hnot
          show g.host.name ∈ List.map (fun g => g.host.name) rest
          rw [← hee]
          exact List.mem_map_of_mem (fun g => g.host.name) hg'
        rw [deployGroups_lookup_skip rest _ deployUrl _ hskip]
        exact lookup_setDeployEntry_self _ _ _ _
      · exact ih _ hndrest g hmem

/-- Group filtering with a (non-empty) package name, unfolded: keep the
groups whose host or co-located member carries the name, with no look at
any URL. -/
theorem filterGroupsForDeploy_some (groups : List BuildGroup) (n : String)
    (tgt : Option DeployTarget) (h : ¬(n = "")) :
    filterGroupsForDeploy groups (some n) tgt
      = groups.filter (fun g =>
          g.host.name == n || g.colocated.any (fun p => p.name == n)) := by
  unfold filterGroupsForDeploy
  have htr : truthy (some n) = true := by
    show (!(n == "")) = true
    rw [beq_false_of_ne h]
    rfl
  rw [htr]

/-- Claim C6: bulk live deploy is idempotent.  With a bare target and no
package name, `filterGroupsForDeploy` keeps exactly the groups whose host
lacks a truthy URL; after a first bulk run has persisted a (non-empty)
URL for every deployed host, a second run with the same bare target
selects zero groups; and an explicit package name bypasses the filter —
a group whose host carries that name is selected regardless of its URL. -/
theorem c6_bulk_idempotent :
    (∀ (groups : List BuildGroup) (t : DeployTarget),
      filterGroupsForDeploy groups none (some t)
        = groups.filter (fun g => !truthy g.host.deploy.url)) ∧
    (∀ (scanned : List (String × ScannedEntry)) (cfg : KagaribiConfig)
        (t : DeployTarget) (deployUrl : BuildGroup → String) (projectRoot : String),
      (∀ g, deployUrl g ≠ "") →
        deploySelect scanned
          ((deployGroups (deploySelect scanned cfg none none (some t) projectRoot)
              cfg deployUrl).2)
          none none (some t) projectRoot = []) ∧
    (∀ (groups : List BuildGroup) (name : String) (tgt : Option DeployTarget)
        (g : BuildGroup),
      g ∈ groups → ¬(name = "") → g.host.name = name →
        g ∈ filterGroupsForDeploy groups (some name) tgt) := by
  refine ⟨fun groups t => rfl, ?_, ?_⟩
  · intro scanned cfg t deployUrl projectRoot hf
    show List.filter _ ((createBuildPlan projectRoot
        (adjustResolvedForTarget (resolvePackages scanned
          ((deployGroups (deploySelect scanned cfg none none (some t) projectRoot)
            cfg deployUrl).2) none) none t) "default" _).groups) = []
    rw [List.filter_eq_nil_iff]
    intro g hg
    rw [createBuildPlan_groups] at hg
    rcases List.mem_map.mp hg with ⟨h, hh, rfl⟩
    rcases List.mem_filter.mp hh with ⟨hhA2, hhind⟩
    rw [adjustResolvedForTarget_none] at hhA2
    rcases List.mem_map.mp hhA2 with ⟨p2, hp2, rfl⟩
    -- the group's host is the adjusted p2; its URL equals p2's URL
    rcases adjustNone_preserves p2 t with ⟨hn2, hu2, _, hind2⟩
    rw [hind2] at hhind
    suffices hurl : truthy p2.deploy.url = true by
      intro hpred
      rw [hu2, hurl] at hpred
      cases hpred
    -- p2 comes from the second resolve against the persisted configuration
    rw [resolvePackages_none] at hp2
    rcases List.mem_map.mp hp2 with ⟨kv, hkv, rfl⟩
    show truthy ((lookupRecord ((deployGroups
        (deploySelect scanned cfg none none (some t) projectRoot)
          cfg deployUrl).2).packages kv.1).getD {}).url = true
    by_cases hD : ∃ g' ∈ deploySelect scanned cfg none none (some t) projectRoot,
        g'.host.name = kv.1
    · exact deployGroups_lookup_url _ cfg deployUrl kv.1 hf hD
    · -- kv was not deployed in the first run: its entry is unchanged.
      -- Either its URL was already truthy, or it was independent without a
      -- URL — but then the first run would have selected it.
      by_cases hu : truthy ((lookupRecord ((deployGroups
          (deploySelect scanned cfg none none (some t) projectRoot)
            cfg deployUrl).2).packages kv.1).getD {}).url = true
      · exact hu
      exfalso
      have hskip : ∀ g' ∈ deploySelect scanned cfg none none (some t) projectRoot,
          g'.host.name ≠ kv.1 := by
        intro g' hg' he
        exact hD ⟨g', hg', he⟩
      have hlk := deployGroups_lookup_skip
        (deploySelect scanned cfg none none (some t) projectRoot) cfg deployUrl kv.1 hskip
      have hdep : ((lookupRecord ((deployGroups
          (deploySelect scanned cfg none none (some t) projectRoot)
            cfg deployUrl).2).packages kv.1).getD {})
          = (lookupRecord cfg.packages kv.1).getD {} := by
        rw [hlk]
      set p1 : ResolvedPackage := ({ name := kv.1, path := kv.2.path, definition := kv.2.definition, deploy := (lookupRecord cfg.packages kv.1).getD {}, mode := deriveMode ((lookupRecord cfg.packages kv.1).getD {}) } : ResolvedPackage) with hp1def
      have hp1mem : p1 ∈ resolvePackages scanned cfg none := by
        rw [resolvePackages_none, hp1def]
        exact List.mem_map_of_mem _ hkv
      rcases adjustNone_preserves p1 t with ⟨hnp, hup, _, hindp⟩
      have hind1 : isIndependent p1 = true := by
        unfold isIndependent at hhind ⊢
        rw [hp1def]
        show (!truthy ((lookupRecord cfg.packages kv.1).getD {}).colocateWith
          || truthy ((lookupRecord cfg.packages kv.1).getD {}).url) = true
        rw [← hdep]
        exact hhind
      have hu1 : truthy p1.deploy.url = false := by
        rw [hp1def]
        show truthy ((lookupRecord cfg.packages kv.1).getD {}).url = false
        rw [← hdep]
        cases hx : truthy ((lookupRecord ((deployGroups
            (deploySelect scanned cfg none none (some t) projectRoot)
              cfg deployUrl).2).packages kv.1).getD {}).url
        · rfl
        · exact absurd hx hu
      set a1 : ResolvedPackage := (if truthy p1.deploy.url then p1 else { p1 with deploy := { p1.deploy with target := some t } }) with ha1
      have hhostmem : a1 ∈ (adjustResolvedForTarget
          (resolvePackages scanned cfg none) none t).filter isIndependent := by
        apply List.mem_filter.mpr
        constructor
        · rw [ha1, adjustResolvedForTarget_none]
          exact List.mem_map_of_mem _ hp1mem
        · rw [hindp]
          exact hind1
      have hgrp : ({ host := a1,
                     colocated := colocatedFor (adjustResolvedForTarget
                       (resolvePackages scanned cfg none) none t) a1.name,
                     remotes := ((adjustResolvedForTarget (resolvePackages scanned cfg none)
                         none t).filter (fun p => truthy p.deploy.url)).filter
                       (fun r => !((a1.name :: (colocatedFor (adjustResolvedForTarget
                         (resolvePackages scanned cfg none) none t) a1.name).map
                           (fun c => c.name)).contains r.name)),
                     target := a1.deploy.target.getD DeployTarget.node } : BuildGroup)
          ∈ (createBuildPlan projectRoot (adjustResolvedForTarget
              (resolvePackages scanned cfg none) none t) "default" cfg).groups := by
        rw [createBuildPlan_groups]
        exact List.mem_map_of_mem _ hhostmem
      apply hD
      refine ⟨_, List.mem_filter.mpr ⟨hgrp, ?_⟩, ?_⟩
      · show (!truthy a1.deploy.url) = true
        rw [hup, hu1]
        rfl
      · show a1.name = kv.1
        rw [hnp, hp1def]
  · intro groups name tgt g hg hname hhost
    rw [filterGroupsForDeploy_some groups name tgt hname]
    apply List.mem_filter.mpr
    refine ⟨hg, ?_⟩
    have hb : (g.host.name == name) = true := by
      rw [hhost]
      simp
    rw [hb]
    rfl

/-- Claim C6, witness: in a project with `root` hosting `auth` and no URLs
set, a first bulk `aws-lambda` deploy selects exactly the `root` group;
after its URL is persisted, a second identical invocation selects zero
groups; and a group whose host already carries a URL is still selected
when its name is passed explicitly. -/
theorem c6_witness :
    (deploySelect scannedC6 configC6 none none (some DeployTarget.awsLambda)
        "/project").map (fun g => g.host.name) = ["root"] ∧
    deploySelect scannedC6
        ((deployGroups (deploySelect scannedC6 configC6 none none
            (some DeployTarget.awsLambda) "/project") configC6 constUrl).2)
        none none (some DeployTarget.awsLambda) "/project" = [] ∧
    truthy groupC10.host.deploy.url = true ∧
    groupC10 ∈ filterGroupsForDeploy [groupC10] (some "root") none := by
  have hcu : ∀ g, constUrl g ≠ "" := by
    intro g h
    simp [constUrl] at h
  refine ⟨by decide, ?_, by decide, ?_⟩
  · exact c6_bulk_idempotent.2.1 scannedC6 configC6 DeployTarget.awsLambda constUrl
      "/project" hcu
  · exact c6_bulk_idempotent.2.2 [groupC10] "root" none groupC10
      (by decide) (by decide) rfl

/-- Claim C10: every deploy result carries the deployed group's host name
(in order); with duplicate-free host names, the configuration mutation
after each deploy persists `\x7b target, url \x7d` under the host's name;
and a `packageName` matching only a co-located member of a group selects
that member's whole host group for deployment. -/
theorem c10_results_host_names :
    (∀ (sel : List BuildGroup) (cfg : KagaribiConfig) (deployUrl : BuildGroup → String),
      (deployGroups sel cfg deployUrl).1.map (fun r => r.packageName)
        = sel.map (fun g => g.host.name)) ∧
    (∀ (sel : List BuildGroup) (cfg : KagaribiConfig) (deployUrl : BuildGroup → String),
      ((sel.map (fun g => g.host.name)).Nodup) →
      ∀ g ∈ sel, lookupRecord ((deployGroups sel cfg deployUrl).2).packages g.host.name
        = some { target := some g.target, colocateWith := none
                 url := some (deployUrl g) }) ∧
    (∀ (groups : List BuildGroup) (name : String) (tgt : Option DeployTarget)
        (g : BuildGroup),
      g ∈ groups → ¬(name = "") →
      g.colocated.any (fun p => p.name == name) = true →
      g ∈ filterGroupsForDeploy groups (some name) tgt) := by
  refine ⟨?_, ?_, ?_⟩
  · intro sel cfg deployUrl
    rw [deployGroups_results, List.map_map]
    rfl
  · intro sel cfg deployUrl hnd g hg
    exact deployGroups_persist sel cfg deployUrl hnd g hg
  · intro groups name tgt g hg hname hcoloc
    rw [filterGroupsForDeploy_some groups name tgt hname]
    apply List.mem_filter.mpr
    refine ⟨hg, ?_⟩
    rw [hcoloc]
    simp

/-- Claim C10, witness: requesting `auth`, which is only a co-located
member of the `root` group, deploys the whole `root` group; the result
entry and the persisted configuration entry both use `root`, the host's
name, not `auth`. -/
theorem c10_witness :
    groupC10.colocated.any (fun p => p.name == "auth") = true ∧
    groupC10.host.name = "root" ∧
    groupC10 ∈ filterGroupsForDeploy [groupC10] (some "auth") none ∧
    (deployGroups [groupC10] configC6 constUrl).1.map (fun r => r.packageName)
      = ["root"] ∧
    lookupRecord ((deployGroups [groupC10] configC6 constUrl).2).packages "root"
      = some { target := some DeployTarget.node, colocateWith := none
               url := some "https://deployed.example" } := by
  refine ⟨rfl, rfl, ?_, ?_, ?_⟩
  · exact c10_results_host_names.2.2 [groupC10] "auth" none groupC10
      (by decide) (by decide) rfl
  · rw [c10_results_host_names.1 [groupC10] configC6 constUrl]
    rfl
  · exact c10_results_host_names.2.1 [groupC10] configC6 constUrl
      (by decide) groupC10 (by decide)

end Kagaribi
